import Mathlib

/-!
Shallow embedding of `zdt_pythoncan_driver/lib_interface.py` (class `CANInterface`).

External collaborators (python-can's `Bus`, `BusABC.send/recv/shutdown`, `time`)
are modelled as parameters: the bus handle created by `Bus(...)` is passed to
`openBus`, the outcome of `bus.send` is the boolean parameter `busSendFails`,
each frame delivered by `bus.recv` is the `msg` argument of `loopPush`, and
wall-clock polling is idealised (checks at elapsed times 0, 1/f, 2/f, ...).
Logging and the lock (`Threader.get_lock`) have no observable effect in a
sequential embedding and are omitted.
-/

/-- python-can `Message`, restricted to the fields the source reads or builds:
`arbitration_id`, `data`, `is_extended_id`, `is_fd`. -/
structure Message where
  arbitration_id : Nat
  data : List Nat
  is_extended_id : Bool
  is_fd : Bool
deriving DecidableEq

/-- An open bus handle (the `BusABC` object stored in `CANInterface.buses`);
its identity is all the embedding needs. -/
structure BusHandle where
  hid : Nat
deriving DecidableEq

/-- A key of the Python dict `CANInterface.message_fifos`. Python dict keys are
dynamically typed: every insertion in the source uses the tuple
`(self.interface, self.channel, can_id)`, but `clear_fifo` probes membership
with the bare int `can_id`. Both shapes are represented so that the membership
test can be embedded exactly as written. -/
inductive DictKey where
  | ofInt : Nat → DictKey
  | ofTuple : String → String → Nat → DictKey
deriving DecidableEq

/-- The `message_fifos` table: dict from key to list of messages. -/
abbrev Fifos := List (DictKey × List Message)

/-- The `CANInterface.buses` table: dict from `(interface, channel)` to
`BusABC | None`. -/
abbrev Buses := List ((String × String) × Option BusHandle)

/-- Dict lookup on an association list (`d[k]` / `k in d`). -/
def lookupA {α β : Type} [DecidableEq α] : List (α × β) → α → Option β
  | [], _ => none
  | (k, v) :: rest, a => if k = a then some v else lookupA rest a

/-- Dict store on an association list (`d[k] = v`, and the in-place mutations
`list.append` / `list.pop(0)` / `list.clear`, which replace the value bound
to an existing key). -/
def insertA {α β : Type} [DecidableEq α] : List (α × β) → α → β → List (α × β)
  | [], a, b => [(a, b)]
  | (k, v) :: rest, a, b => if k = a then (a, b) :: rest else (k, v) :: insertA rest a b

/-- Modelled from the spec: `lib_threading.Threader` is not under `src/` (only
`lib_interface.py` is). Per the spec, the Threader runs one background
Receiver Loop with a cooperative stop flag (`_running`), `start_threaded`
spawns exactly one loop, and `stop` signals the flag and waits for loop exit.
`loopsSpawned` counts the `start_threaded` calls so "exactly one loop" is
observable. -/
structure Threader where
  running : Bool
  loopsSpawned : Nat
deriving DecidableEq

/-- Modelled from the spec: `Threader.stop` signals the stop flag; it does not
raise. -/
def Threader.stop (t : Threader) : Threader :=
  { t with running := false }

/-- Modelled from the spec: `Threader.start_threaded` starts one background
Receiver Loop. -/
def Threader.start_threaded (t : Threader) : Threader :=
  { running := true, loopsSpawned := t.loopsSpawned + 1 }

/-- The process-wide mutable state touched by open/close/send: the static
`CANInterface.buses` dict and this instance's `Threader`. -/
structure CANState where
  buses : Buses
  threader : Threader
deriving DecidableEq

/-- The distinct raise sites of the source. The spec's taxonomy maps onto
them as: `NotOpenError` = the explicit `KeyError` in `send`,
`HandleUnavailableError` = the `ValueError` in `send`,
`InvalidArgumentError` = the `ValueError` in `receive_from`; the `KeyError`
from the subscript `CANInterface.buses[...]` in `close` has no spec name. -/
inductive PyError where
  | keyErrorMissingBus
  | valueErrorBusNone
  | valueErrorCheckFreq
  | keyErrorMissingEntry
deriving DecidableEq

/-- Construction parameters of a `CANInterface` instance (`__init__`). -/
structure CANInterface where
  interface : String
  channel : String
  bitrate : Nat
  max_queue_size : Nat
deriving DecidableEq

/-- The tuple `(self.interface, self.channel, can_id)` used as a
`message_fifos` key. -/
def CANInterface.fifoKey (c : CANInterface) (can_id : Nat) : DictKey :=
  .ofTuple c.interface c.channel can_id

/-- One iteration of `CANInterface._loop` after `bus.recv` returned `msg`
(lines 50-56): append to the fifo of `msg.arbitration_id`, then if its length
exceeds `max_queue_size` remove the oldest message; if no fifo exists yet,
create one holding just `msg`. -/
def CANInterface.loopPush (c : CANInterface) (fifos : Fifos) (msg : Message) : Fifos :=
  let can_id := msg.arbitration_id
  match lookupA fifos (c.fifoKey can_id) with
  | some q =>
      let q1 := q ++ [msg]
      if c.max_queue_size < q1.length then
        insertA fifos (c.fifoKey can_id) q1.tail
      else
        insertA fifos (c.fifoKey can_id) q1
  | none => insertA fifos (c.fifoKey can_id) [msg]

/-- `CANInterface.clear_fifo(ids)`. `ids` is `Optional[Iterable[int]]` with
default `[]`; `if not ids` is Python falsiness (None or the empty list), and
then `message_fifos.clear()` removes every entry. Otherwise, for each
`can_id`, the source tests `if can_id in self.message_fifos` — membership of
the bare int among tuple keys — and only then clears the tuple-keyed entry in
place. (When the guard holds but the tuple key is absent, Python would raise
`KeyError`; with tuple-only stores the guard never holds.) -/
def CANInterface.clear_fifo (c : CANInterface) (fifos : Fifos)
    (ids : Option (List Nat)) : Fifos :=
  match ids with
  | none => []
  | some l =>
    if l = [] then []
    else
      l.foldl (fun fs can_id =>
        if (lookupA fs (DictKey.ofInt can_id)).isSome then
          insertA fs (c.fifoKey can_id) []
        else fs) fifos

/-- `CANInterface.open` (lines 70-73): if `(interface, channel)` is not in
`buses` or is mapped to `None`, store the freshly constructed bus and start
the receiver thread; otherwise do nothing. The `Bus(...)` constructor is
external, so the handle it would return is the parameter `newBus`. -/
def CANInterface.openBus (c : CANInterface) (s : CANState) (newBus : BusHandle) : CANState :=
  match lookupA s.buses (c.interface, c.channel) with
  | some (some _) => s
  | _ =>
      { buses := insertA s.buses (c.interface, c.channel) (some newBus)
        threader := s.threader.start_threaded }

/-- `CANInterface.close` (lines 75-80): `self._threader.stop()`, then the
subscript `CANInterface.buses[(self.interface, self.channel)]` — a `KeyError`
when the key is absent. With a non-None bus, `bus.shutdown()` is called
(recorded in the returned list) and then `bus = None` rebinds only the local
variable `bus`: the `buses` entry itself is left unchanged. -/
def CANInterface.close (c : CANInterface) (s : CANState) :
    Except PyError (CANState × List BusHandle) :=
  let s1 : CANState := { s with threader := s.threader.stop }
  match lookupA s1.buses (c.interface, c.channel) with
  | none => .error .keyErrorMissingEntry
  | some (some bus) => .ok (s1, [bus])
  | some none => .ok (s1, [])

/-- `CANInterface.send` (lines 105-124): raise `KeyError` if
`(interface, channel)` is not in `buses`; raise `ValueError` if the stored
bus is `None`; otherwise `try: bus.send(...)` — the external send either
succeeds (`return True`) or raises, which the bare `except` catches
(`return False`). `busSendFails` is the outcome of the external call. -/
def CANInterface.send (c : CANInterface) (s : CANState) (msg : Message)
    (busSendFails : Bool) : Except PyError Bool :=
  match lookupA s.buses (c.interface, c.channel) with
  | none => .error .keyErrorMissingBus
  | some none => .error .valueErrorBusNone
  | some (some _) => .ok (!busSendFails)

/-- One polling check of `receive_from` (the body under the lock): if the
fifo for `can_id` exists and is non-empty, `pop(0)` — remove and return the
oldest message; otherwise nothing. -/
def CANInterface.tryPop (c : CANInterface) (fifos : Fifos) (can_id : Nat) :
    Option Message × Fifos :=
  match lookupA fifos (c.fifoKey can_id) with
  | some (m :: rest) => (some m, insertA fifos (c.fifoKey can_id) rest)
  | some [] => (none, fifos)
  | none => (none, fifos)

/-- The polling loop of `receive_from`: up to `n` checks, sleeping
`1 / check_frequency` between them; returns as soon as a check pops a
message. -/
def CANInterface.pollLoop (c : CANInterface) (fifos : Fifos) (can_id : Nat) :
    Nat → Option Message × Fifos
  | 0 => (none, fifos)
  | n + 1 =>
    match c.tryPop fifos can_id with
    | (some m, fs) => (some m, fs)
    | (none, fs) => c.pollLoop fs can_id n

/-- `CANInterface.receive_from` (lines 82-103). The guard
`if not check_frequency or check_frequency <= 0` raises `ValueError` (None
and 0 are falsy; the disjunct `f = 0` is kept as written). With
`timeout = None` the source polls forever; `fuel` bounds how many checks the
embedding observes. With a numeric `timeout`, checks happen at elapsed times
0, 1/f, 2/f, ... while elapsed < timeout, i.e. exactly `⌈timeout * f⌉₊`
checks, after which `return None`. -/
def CANInterface.receive_from (c : CANInterface) (fifos : Fifos) (can_id : Nat)
    (timeout : Option Rat) (check_frequency : Option Rat) (fuel : Nat) :
    Except PyError (Option Message) × Fifos :=
  match check_frequency with
  | none => (.error .valueErrorCheckFreq, fifos)
  | some f =>
    if f = 0 ∨ f ≤ 0 then (.error .valueErrorCheckFreq, fifos)
    else
      match timeout with
      | none =>
        let r := c.pollLoop fifos can_id fuel
        (.ok r.1, r.2)
      | some t =>
        let r := c.pollLoop fifos can_id (Int.toNat (Int.ceil (t * f)))
        (.ok r.1, r.2)

/-- A sequence of `n` blocking `receive_from` calls (timeout `None`, the
default `check_frequency = 100`), collecting the messages returned; stops
early if a call yields nothing within its fuel. -/
def CANInterface.receivePops (c : CANInterface) (can_id : Nat) :
    Fifos → Nat → List Message × Fifos
  | fifos, 0 => ([], fifos)
  | fifos, n + 1 =>
    match c.receive_from fifos can_id none (some 100) 1 with
    | (.ok (some m), fs) =>
      let r := c.receivePops can_id fs n
      (m :: r.1, r.2)
    | (_, fs) => ([], fs)

/-- The fifo update of one `_loop` iteration viewed on a single queue that
already exists: append `msg`, then drop the oldest entry if the length now
exceeds `max_queue_size`. (`loopPush` performs exactly this on the value
stored under `fifoKey`.) -/
def CANInterface.stepQ (c : CANInterface) (q : List Message) (m : Message) : List Message :=
  if c.max_queue_size < (q ++ [m]).length then (q ++ [m]).tail else q ++ [m]

/-- Instance with `max_queue_size = 0`. -/
def cI0 : CANInterface :=
  { interface := "a", channel := "b", bitrate := 500000, max_queue_size := 0 }

/-- Instance with `max_queue_size = 2`. -/
def cI2 : CANInterface :=
  { interface := "a", channel := "b", bitrate := 500000, max_queue_size := 2 }

def m5 : Message :=
  { arbitration_id := 5, data := [1], is_extended_id := true, is_fd := false }

def m6 : Message :=
  { arbitration_id := 5, data := [2], is_extended_id := true, is_fd := false }

def m7 : Message :=
  { arbitration_id := 5, data := [3], is_extended_id := true, is_fd := false }

def h0 : BusHandle := { hid := 0 }

/-- State before any `open()`: the static `buses` dict is empty. -/
def st0 : CANState :=
  { buses := [], threader := { running := false, loopsSpawned := 0 } }

/-- State after `open()` on `("a", "b")`: one live handle, one loop. -/
def st1 : CANState :=
  { buses := [(("a", "b"), some h0)], threader := { running := true, loopsSpawned := 1 } }

/-- A store holding one message for can id 5 on `("a", "b")`. -/
def fifos0 : Fifos := [(DictKey.ofTuple "a" "b" 5, [m5])]

theorem lookupA_insertA_self {α β : Type} [DecidableEq α] (l : List (α × β)) (k : α) (v : β) :
    lookupA (insertA l k v) k = some v := by
  induction l with
  | nil => simp [insertA, lookupA]
  | cons p rest ih =>
    obtain ⟨k1, v1⟩ := p
    by_cases h : k1 = k
    · simp [insertA, h, lookupA]
    · simp [insertA, h, lookupA, ih]

theorem lookupA_insertA_ne {α β : Type} [DecidableEq α] (l : List (α × β)) (k k' : α) (v : β)
    (h : k' ≠ k) : lookupA (insertA l k v) k' = lookupA l k' := by
  induction l with
  | nil => simp [insertA, lookupA, Ne.symm h]
  | cons p rest ih =>
    obtain ⟨k1, v1⟩ := p
    by_cases h1 : k1 = k
    · simp [insertA, h1, lookupA, Ne.symm h]
    · simp only [insertA, if_neg h1, lookupA, ih]

theorem CANInterface.loopPush_lookup_self (c : CANInterface) (fifos : Fifos) (m : Message)
    (can_id : Nat) (q : List Message) (hid : m.arbitration_id = can_id)
    (h : lookupA fifos (c.fifoKey can_id) = some q) :
    lookupA (c.loopPush fifos m) (c.fifoKey can_id) = some (c.stepQ q m) := by
  subst hid
  simp only [CANInterface.loopPush, h, CANInterface.stepQ]
  split <;> exact lookupA_insertA_self _ _ _

theorem CANInterface.loopPush_lookup_none (c : CANInterface) (fifos : Fifos) (m : Message)
    (can_id : Nat) (hid : m.arbitration_id = can_id)
    (h : lookupA fifos (c.fifoKey can_id) = none) :
    lookupA (c.loopPush fifos m) (c.fifoKey can_id) = some [m] := by
  subst hid
  simp only [CANInterface.loopPush, h]
  exact lookupA_insertA_self _ _ _

theorem CANInterface.loopPush_lookup_ne (c : CANInterface) (fifos : Fifos) (m : Message)
    (k' : DictKey) (h : k' ≠ c.fifoKey m.arbitration_id) :
    lookupA (c.loopPush fifos m) k' = lookupA fifos k' := by
  cases hl : lookupA fifos (c.fifoKey m.arbitration_id) with
  | none =>
    simp only [CANInterface.loopPush, hl]
    exact lookupA_insertA_ne _ _ _ _ h
  | some q =>
    simp only [CANInterface.loopPush, hl]
    by_cases hc : c.max_queue_size < (q ++ [m]).length
    · simp only [if_pos hc]
      exact lookupA_insertA_ne _ _ _ _ h
    · simp only [if_neg hc]
      exact lookupA_insertA_ne _ _ _ _ h

theorem CANInterface.stepQ_length (c : CANInterface) (q : List Message) (m : Message)
    (h : q.length ≤ c.max_queue_size) : (c.stepQ q m).length ≤ c.max_queue_size := by
  unfold CANInterface.stepQ
  by_cases hc : c.max_queue_size < (q ++ [m]).length
  · rw [if_pos hc]
    simp only [List.length_tail, List.length_append, List.length_singleton] at *
    omega
  · rw [if_neg hc]
    simp only [not_lt, List.length_append, List.length_singleton] at hc ⊢
    omega

theorem CANInterface.foldl_stepQ_append (c : CANInterface) (ms : List Message) :
    ∀ q : List Message, q.length + ms.length ≤ c.max_queue_size →
      ms.foldl c.stepQ q = q ++ ms := by
  induction ms with
  | nil => intro q _; simp
  | cons m rest ih =>
    intro q h
    simp only [List.length_cons] at h
    have hc : ¬ c.max_queue_size < (q ++ [m]).length := by
      simp only [not_lt, List.length_append, List.length_singleton]
      omega
    have hstep : c.stepQ q m = q ++ [m] := by
      unfold CANInterface.stepQ
      rw [if_neg hc]
    rw [List.foldl_cons, hstep,
      ih (q ++ [m]) (by simp only [List.length_append, List.length_singleton]; omega)]
    simp

theorem CANInterface.foldl_stepQ_drop (c : CANInterface) (ms : List Message) :
    ∀ q : List Message, q.length ≤ c.max_queue_size →
      ms.foldl c.stepQ q = (q ++ ms).drop (q.length + ms.length - c.max_queue_size) := by
  induction ms with
  | nil =>
    intro q h
    simp only [List.foldl_nil, List.append_nil, List.length_nil, Nat.add_zero]
    rw [Nat.sub_eq_zero_of_le h, List.drop_zero]
  | cons m rest ih =>
    intro q h
    by_cases hc : c.max_queue_size < (q ++ [m]).length
    · have hq : q.length = c.max_queue_size := by
        simp only [List.length_append, List.length_singleton] at hc
        omega
      have hstep : c.stepQ q m = (q ++ [m]).tail := by
        unfold CANInterface.stepQ
        rw [if_pos hc]
      have hlen : (q ++ [m]).tail.length ≤ c.max_queue_size := by
        simp only [List.length_tail, List.length_append, List.length_singleton]
        omega
      rw [List.foldl_cons, hstep, ih _ hlen]
      have h1 : (q ++ [m]).tail.length = c.max_queue_size := by
        simp only [List.length_tail, List.length_append, List.length_singleton]
        omega
      rw [h1]
      have h2 : c.max_queue_size + rest.length - c.max_queue_size = rest.length := by omega
      rw [h2]
      have h3 : q.length + (m :: rest).length - c.max_queue_size = rest.length + 1 := by
        simp only [List.length_cons]
        omega
      rw [h3]
      have h4 : (q ++ [m]).tail ++ rest = ((q ++ [m]) ++ rest).drop 1 := by
        rw [List.drop_append_of_le_length (by simp), List.drop_one]
      rw [h4, List.drop_drop]
      have h5 : (q ++ [m]) ++ rest = q ++ m :: rest := by simp
      rw [h5, Nat.add_comm]
    · have hstep : c.stepQ q m = q ++ [m] := by
        unfold CANInterface.stepQ
        rw [if_neg hc]
      have hlen : (q ++ [m]).length ≤ c.max_queue_size := by
        simp only [not_lt] at hc
        exact hc
      rw [List.foldl_cons, hstep, ih _ hlen]
      have e1 : (q ++ [m]).length + rest.length - c.max_queue_size
          = q.length + (m :: rest).length - c.max_queue_size := by
        simp only [List.length_append, List.length_singleton, List.length_cons,
          List.length_nil]
        omega
      rw [e1]
      have e2 : (q ++ [m]) ++ rest = q ++ m :: rest := by simp
      rw [e2]

theorem CANInterface.foldl_loopPush_lookup (c : CANInterface) (can_id : Nat)
    (ms : List Message) :
    ∀ (fifos : Fifos) (q : List Message),
      (∀ m ∈ ms, m.arbitration_id = can_id) →
      lookupA fifos (c.fifoKey can_id) = some q →
      lookupA (ms.foldl c.loopPush fifos) (c.fifoKey can_id)
        = some (ms.foldl c.stepQ q) := by
  induction ms with
  | nil => intro fifos q _ hq; simpa using hq
  | cons m rest ih =>
    intro fifos q hall hq
    have hid : m.arbitration_id = can_id := hall m (List.mem_cons_self m rest)
    have h1 : lookupA (c.loopPush fifos m) (c.fifoKey can_id) = some (c.stepQ q m) :=
      c.loopPush_lookup_self fifos m can_id q hid hq
    rw [List.foldl_cons, List.foldl_cons]
    exact ih (c.loopPush fifos m) (c.stepQ q m)
      (fun m' hm' => hall m' (List.mem_cons_of_mem _ hm')) h1

theorem CANInterface.foldl_loopPush_lookup_ne (c : CANInterface) (can_id : Nat)
    (k' : DictKey) (hk : k' ≠ c.fifoKey can_id) (ms : List Message) :
    ∀ fifos : Fifos,
      (∀ m ∈ ms, m.arbitration_id = can_id) →
      lookupA (ms.foldl c.loopPush fifos) k' = lookupA fifos k' := by
  induction ms with
  | nil => intro fifos _; rfl
  | cons m rest ih =>
    intro fifos hall
    rw [List.foldl_cons, ih _ (fun m' hm' => hall m' (List.mem_cons_of_mem _ hm'))]
    refine c.loopPush_lookup_ne fifos m k' ?_
    rw [hall m (List.mem_cons_self m rest)]
    exact hk

theorem CANInterface.receive_from_pop (c : CANInterface) (fifos : Fifos) (can_id : Nat)
    (m : Message) (rest : List Message)
    (hq : lookupA fifos (c.fifoKey can_id) = some (m :: rest)) :
    c.receive_from fifos can_id none (some 100) 1
      = (.ok (some m), insertA fifos (c.fifoKey can_id) rest) := by
  have hcond : ¬ ((100 : Rat) = 0 ∨ (100 : Rat) ≤ 0) := by norm_num
  simp only [CANInterface.receive_from, if_neg hcond]
  simp only [CANInterface.pollLoop, CANInterface.tryPop, hq]

theorem CANInterface.receivePops_spec (c : CANInterface) (can_id : Nat)
    (ms : List Message) :
    ∀ fifos : Fifos,
      lookupA fifos (c.fifoKey can_id) = some ms →
      (c.receivePops can_id fifos ms.length).1 = ms ∧
      (∀ k', k' ≠ c.fifoKey can_id →
        lookupA (c.receivePops can_id fifos ms.length).2 k' = lookupA fifos k') := by
  induction ms with
  | nil => intro fifos _; exact ⟨rfl, fun _ _ => rfl⟩
  | cons m rest ih =>
    intro fifos hq
    have hpop := c.receive_from_pop fifos can_id m rest hq
    have hq2 : lookupA (insertA fifos (c.fifoKey can_id) rest) (c.fifoKey can_id)
        = some rest := lookupA_insertA_self _ _ _
    obtain ⟨ih1, ih2⟩ := ih (insertA fifos (c.fifoKey can_id) rest) hq2
    have hunf : c.receivePops can_id fifos (m :: rest).length
        = (m :: (c.receivePops can_id (insertA fifos (c.fifoKey can_id) rest) rest.length).1,
           (c.receivePops can_id (insertA fifos (c.fifoKey can_id) rest) rest.length).2) := by
      simp only [List.length_cons, CANInterface.receivePops, hpop]
    constructor
    · rw [hunf]
      simp only [ih1]
    · intro k' hk
      rw [hunf]
      simp only
      rw [ih2 k' hk, lookupA_insertA_ne _ _ _ _ hk]

/-- C1, counterexample to the claim as stated: with `max_queue_size = 0` the
new-fifo branch of `_loop` (line 56) performs no eviction, so after the very
first insertion the FIFO holds 1 > 0 messages. -/
theorem C1_counterexample :
    lookupA (cI0.loopPush [] m5) (cI0.fifoKey 5) = some [m5] ∧
    cI0.max_queue_size < [m5].length := by
  constructor
  · decide
  · decide

/-- C1 (amended): provided the configured maximum queue size is at least 1,
(a) an insertion by the Receiver Loop preserves the invariant that every
FIFO's length is at most the maximum, and (b) any sequence of N pushes
(N > maximum) of messages for one can id, starting from an empty store,
leaves exactly the most recent `max_queue_size` messages in arrival order
(oldest evicted first). -/
theorem C1_fifo_bound (c : CANInterface) (hmax : 1 ≤ c.max_queue_size) :
    (∀ (fifos : Fifos) (m : Message),
      (∀ k q, lookupA fifos k = some q → q.length ≤ c.max_queue_size) →
      ∀ k q, lookupA (c.loopPush fifos m) k = some q → q.length ≤ c.max_queue_size) ∧
    (∀ (can_id : Nat) (ms : List Message),
      (∀ m ∈ ms, m.arbitration_id = can_id) →
      c.max_queue_size < ms.length →
      lookupA (ms.foldl c.loopPush []) (c.fifoKey can_id)
        = some (ms.drop (ms.length - c.max_queue_size))) := by
  constructor
  · intro fifos m hinv k q hk
    by_cases hkey : k = c.fifoKey m.arbitration_id
    · subst hkey
      cases hl : lookupA fifos (c.fifoKey m.arbitration_id) with
      | none =>
        rw [c.loopPush_lookup_none fifos m m.arbitration_id rfl hl] at hk
        obtain rfl : ([m] : List Message) = q := Option.some.inj hk
        simpa using hmax
      | some q0 =>
        rw [c.loopPush_lookup_self fifos m m.arbitration_id q0 rfl hl] at hk
        obtain rfl : c.stepQ q0 m = q := Option.some.inj hk
        exact c.stepQ_length q0 m (hinv _ q0 hl)
    · rw [c.loopPush_lookup_ne fifos m k hkey] at hk
      exact hinv k q hk
  · intro can_id ms hall hlen
    cases ms with
    | nil => simp at hlen
    | cons m rest =>
      have hid : m.arbitration_id = can_id := hall m (List.mem_cons_self m rest)
      have h1 : lookupA (c.loopPush [] m) (c.fifoKey can_id) = some [m] :=
        c.loopPush_lookup_none [] m can_id hid rfl
      rw [List.foldl_cons,
        c.foldl_loopPush_lookup can_id rest (c.loopPush [] m) [m]
          (fun m' hm' => hall m' (List.mem_cons_of_mem _ hm')) h1,
        c.foldl_stepQ_drop rest [m] (by simpa using hmax)]
      simp only [List.singleton_append, List.length_cons, List.length_nil]
      congr 2
      omega

/-- C1 witness: with maximum 2 and three pushes for can id 5, the FIFO holds
the last two messages. -/
theorem C1_fifo_bound_witness :
    lookupA ([m5, m6, m7].foldl cI2.loopPush []) (cI2.fifoKey 5)
      = some ([m5, m6, m7].drop 1) :=
  (C1_fifo_bound cI2 (by decide)).2 5 [m5, m6, m7] (by decide) (by decide)

/-- C2: evaluating the code at the failing input. The store maps
`("a", "b", 5)` to one message; `clear_fifo([5])` leaves it completely
unchanged, because the guard `if can_id in self.message_fifos` probes the
bare int 5 against tuple keys and is never true — contradicting the claim
(and the function's own docstring), which say the FIFO of id 5 is emptied. -/
theorem C2_clear_fifo_noop :
    cI0.clear_fifo fifos0 (some [5]) = fifos0 ∧
    lookupA (cI0.clear_fifo fifos0 (some [5])) (DictKey.ofTuple "a" "b" 5)
      = some [m5] := by
  constructor
  · decide
  · decide

/-- C3: evaluating the code at the failing input. After `close()` on a state
whose registry maps `("a", "b")` to a live handle, the call returns
successfully and shuts the handle down, but the registry entry still maps
the key to that same (non-null) handle: the assignment `bus = None` on line
80 rebinds a local variable, never the dict entry — contradicting the claim
(and the line's own `# Reset` comment). -/
theorem C3_close_keeps_handle :
    cI0.close st1
      = .ok ({ buses := [(("a", "b"), some h0)],
               threader := { running := false, loopsSpawned := 1 } }, [h0]) ∧
    lookupA [(("a", "b"), some h0)] ("a", "b") = some (some h0) := by
  constructor
  · rfl
  · decide

/-- C4, counterexample to the claim as stated: `close()` before any `open()`
(empty `buses` dict) raises `KeyError` at the subscript
`CANInterface.buses[(self.interface, self.channel)]` — it is not a no-op. -/
theorem C4_counterexample :
    cI0.close st0 = .error .keyErrorMissingEntry := by
  rfl

/-- C4 (amended): `close()` raises no error whenever the shared registry has
an entry for this instance's Connection Key (whether null or a live handle) —
in particular a second consecutive `close()` after `open()` is error-free;
but before any `open()` for the key, when the registry has no entry, the
registry subscript raises `KeyError`. -/
theorem C4_close_entry_no_error (c : CANInterface) (s : CANState)
    (obus : Option BusHandle)
    (h : lookupA s.buses (c.interface, c.channel) = some obus) :
    ∃ r, c.close s = .ok r := by
  cases obus with
  | none =>
    refine ⟨({ s with threader := s.threader.stop }, []), ?_⟩
    simp [CANInterface.close, h]
  | some b =>
    refine ⟨({ s with threader := s.threader.stop }, [b]), ?_⟩
    simp [CANInterface.close, h]

/-- C4 witness: `close()` on the opened state succeeds. -/
theorem C4_close_entry_no_error_witness : ∃ r, cI0.close st1 = .ok r :=
  C4_close_entry_no_error cI0 st1 (some h0) (by decide)

/-- C5: for one Queue Key, after the Receiver Loop pushes the messages `ms`
(all carrying `can_id`, within the queue bound, into a store whose fifo for
that key does not exist yet but whose other queues are arbitrary), repeated
successful pops via `receive_from` return exactly `ms` in push order, and no
other Queue Key's entry is affected. -/
theorem C5_receive_fifo_order (c : CANInterface) (can_id : Nat) (ms : List Message)
    (fifos : Fifos)
    (hall : ∀ m ∈ ms, m.arbitration_id = can_id)
    (hnone : lookupA fifos (c.fifoKey can_id) = none)
    (hlen : ms.length ≤ c.max_queue_size) :
    (c.receivePops can_id (ms.foldl c.loopPush fifos) ms.length).1 = ms ∧
    ∀ k', k' ≠ c.fifoKey can_id →
      lookupA (c.receivePops can_id (ms.foldl c.loopPush fifos) ms.length).2 k'
        = lookupA fifos k' := by
  cases ms with
  | nil => exact ⟨rfl, fun _ _ => rfl⟩
  | cons m rest =>
    have hload : lookupA ((m :: rest).foldl c.loopPush fifos) (c.fifoKey can_id)
        = some (m :: rest) := by
      have hid : m.arbitration_id = can_id := hall m (List.mem_cons_self m rest)
      have h1 : lookupA (c.loopPush fifos m) (c.fifoKey can_id) = some [m] :=
        c.loopPush_lookup_none fifos m can_id hid hnone
      have hle : ([m] : List Message).length + rest.length ≤ c.max_queue_size := by
        simp only [List.length_cons, List.length_nil] at hlen ⊢
        omega
      rw [List.foldl_cons,
        c.foldl_loopPush_lookup can_id rest (c.loopPush fifos m) [m]
          (fun m' hm' => hall m' (List.mem_cons_of_mem _ hm')) h1,
        c.foldl_stepQ_append rest [m] hle,
        List.singleton_append]
    obtain ⟨h1, h2⟩ :=
      c.receivePops_spec can_id (m :: rest) ((m :: rest).foldl c.loopPush fifos) hload
    refine ⟨h1, fun k' hk => ?_⟩
    rw [h2 k' hk, c.foldl_loopPush_lookup_ne can_id k' hk (m :: rest) fifos hall]

/-- C5 witness: pushing two messages for can id 5 and popping twice returns
them in push order. -/
theorem C5_receive_fifo_order_witness :
    (cI2.receivePops 5 ([m5, m6].foldl cI2.loopPush []) 2).1 = [m5, m6] :=
  (C5_receive_fifo_order cI2 5 [m5, m6] [] (by decide) rfl (by decide)).1

/-- C6: with no registry entry for the Connection Key, `send` raises the
(propagated) `KeyError` — the spec's `NotOpenError`; with an entry mapped to
null it raises `ValueError` — the spec's `HandleUnavailableError`; in both
cases the outcome is an exception, never an `ok` boolean. -/
theorem C6_send_error_propagation (c : CANInterface) (s : CANState) (msg : Message)
    (busSendFails : Bool) :
    (lookupA s.buses (c.interface, c.channel) = none →
      c.send s msg busSendFails = .error .keyErrorMissingBus ∧
      ∀ b : Bool, c.send s msg busSendFails ≠ .ok b) ∧
    (lookupA s.buses (c.interface, c.channel) = some none →
      c.send s msg busSendFails = .error .valueErrorBusNone ∧
      ∀ b : Bool, c.send s msg busSendFails ≠ .ok b) := by
  constructor
  · intro h
    have he : c.send s msg busSendFails = .error .keyErrorMissingBus := by
      simp [CANInterface.send, h]
    exact ⟨he, fun b hb => by rw [he] at hb; exact Except.noConfusion hb⟩
  · intro h
    have he : c.send s msg busSendFails = .error .valueErrorBusNone := by
      simp [CANInterface.send, h]
    exact ⟨he, fun b hb => by rw [he] at hb; exact Except.noConfusion hb⟩

/-- C6 witness: `send` before any `open()` raises the `KeyError`. -/
theorem C6_send_error_propagation_witness :
    cI0.send st0 m5 false = .error .keyErrorMissingBus :=
  ((C6_send_error_propagation cI0 st0 m5 false).1 rfl).1

/-- C7: with a live handle for the Connection Key, a failing/timing-out
transport send is caught and `send` returns the boolean `false` (no
exception escapes); a successful transport send yields `true`. -/
theorem C7_send_transport_failure (c : CANInterface) (s : CANState) (msg : Message)
    (b : BusHandle)
    (hb : lookupA s.buses (c.interface, c.channel) = some (some b)) :
    c.send s msg true = .ok false ∧ c.send s msg false = .ok true := by
  constructor <;> simp [CANInterface.send, hb]

/-- C7 witness: on the opened state, both send outcomes are `ok` booleans. -/
theorem C7_send_transport_failure_witness :
    cI0.send st1 m5 true = .ok false ∧ cI0.send st1 m5 false = .ok true :=
  C7_send_transport_failure cI0 st1 m5 h0 rfl

/-- C8: a `check_frequency` that is absent or not strictly positive makes
`receive_from` raise `ValueError` (the spec's `InvalidArgumentError`) with
the message store returned untouched — no poll and no pop happens. -/
theorem C8_invalid_check_frequency (c : CANInterface) (fifos : Fifos) (can_id : Nat)
    (timeout : Option Rat) (cf : Option Rat) (fuel : Nat)
    (h : ∀ f, cf = some f → f ≤ 0) :
    c.receive_from fifos can_id timeout cf fuel
      = (.error .valueErrorCheckFreq, fifos) := by
  cases cf with
  | none => rfl
  | some f =>
    have hcond : f = 0 ∨ f ≤ 0 := Or.inr (h f rfl)
    simp only [CANInterface.receive_from, if_pos hcond]

/-- C8 witness: `check_frequency = 0` is rejected and the non-empty store is
unchanged. -/
theorem C8_invalid_check_frequency_witness :
    cI0.receive_from fifos0 5 (some 1) (some 0) 7
      = (.error .valueErrorCheckFreq, fifos0) :=
  C8_invalid_check_frequency cI0 fifos0 5 (some 1) (some 0) 7
    (fun f hf => by injection hf with h; subst h; exact le_refl 0)

/-- C9: `open()` is idempotent — with a non-null handle already registered it
changes nothing (in particular spawns no new Receiver Loop); with no entry or
a null entry it stores the new handle and spawns exactly one Receiver Loop. -/
theorem C9_open_idempotent (c : CANInterface) (s : CANState) (newBus : BusHandle) :
    (∀ b : BusHandle,
      lookupA s.buses (c.interface, c.channel) = some (some b) →
      c.openBus s newBus = s) ∧
    ((lookupA s.buses (c.interface, c.channel) = none ∨
      lookupA s.buses (c.interface, c.channel) = some none) →
      lookupA (c.openBus s newBus).buses (c.interface, c.channel) = some (some newBus) ∧
      (c.openBus s newBus).threader.loopsSpawned = s.threader.loopsSpawned + 1 ∧
      (c.openBus s newBus).threader.running = true) := by
  constructor
  · intro b hb
    simp [CANInterface.openBus, hb]
  · intro h
    have hred : c.openBus s newBus
        = { buses := insertA s.buses (c.interface, c.channel) (some newBus)
            threader := s.threader.start_threaded } := by
      cases h with
      | inl h => simp [CANInterface.openBus, h]
      | inr h => simp [CANInterface.openBus, h]
    rw [hred]
    exact ⟨lookupA_insertA_self _ _ _, rfl, rfl⟩

/-- C9 witness: `open()` on the already-open state is the identity. -/
theorem C9_open_idempotent_witness : cI0.openBus st1 h0 = st1 :=
  (C9_open_idempotent cI0 st1 h0).1 h0 rfl

/-- C10: with a valid (positive) `check_frequency` and a timeout ≤ 0, the
timed while-loop condition `time.time() - start_time < timeout` is false at
the first check, so `receive_from` returns None immediately without a single
pop attempt and the store is unchanged — even when the fifo is non-empty. -/
theorem C10_nonpositive_timeout (c : CANInterface) (fifos : Fifos) (can_id : Nat)
    (t f : Rat) (fuel : Nat) (hf : 0 < f) (ht : t ≤ 0) :
    c.receive_from fifos can_id (some t) (some f) fuel = (.ok none, fifos) := by
  have hcond : ¬ (f = 0 ∨ f ≤ 0) := by
    rintro (h0 | hle)
    · exact absurd h0 (ne_of_gt hf)
    · exact absurd hle (not_le.mpr hf)
  have h1 : t * f ≤ 0 := mul_nonpos_iff.mpr (Or.inr ⟨ht, le_of_lt hf⟩)
  have h2 : Int.ceil (t * f) ≤ 0 := by
    rw [Int.ceil_le]
    exact_mod_cast h1
  have hceil : Int.toNat (Int.ceil (t * f)) = 0 := Int.toNat_of_nonpos h2
  simp only [CANInterface.receive_from, if_neg hcond, hceil, CANInterface.pollLoop]

/-- C10 witness: timeout 0 on a non-empty fifo returns None and leaves the
store unchanged. -/
theorem C10_nonpositive_timeout_witness :
    cI0.receive_from fifos0 5 (some 0) (some 100) 3 = (.ok none, fifos0) :=
  C10_nonpositive_timeout cI0 fifos0 5 0 100 3 (by norm_num) (le_refl 0)
